import Mathlib

/-!
Shallow embedding of the intents-1click-rule-engine fee rule engine
(src/types.ts, src/matcher.ts, src/rule-engine.ts, src/validator.ts)
together with proofs about rule selection, pattern matching, fee
arithmetic, time-window validity and configuration validation.

Conventions used by the embedding:
* JavaScript `number` values are modelled by `JsNumber`: a finite value is
  an exact rational (every IEEE double is rational), plus NaN and the two
  infinities.
* JavaScript `bigint` values are modelled by `Int`; BigInt division
  truncates toward zero, which is `Int.tdiv`.
* Functions that can `throw` are modelled in `Except String`.
* The token registry collaborator (`getToken`) is modelled as a function
  `String → Option TokenInfo`; `new Date(s).getTime()` (an `NaN` result
  meaning unparseable) is modelled as a parameter `parse : String → Option Int`
  and the wall clock `Date.now()` as a parameter `now : Int`.
-/

deriving instance DecidableEq for Except

namespace OneClick

/-- JavaScript `number`: a finite value (an exact rational), NaN, or an infinity. -/
inductive JsNumber where
  | num (q : ℚ)
  | nan
  | inf
  | ninf
deriving DecidableEq

namespace JsNumber

/-- model of `Number.isFinite`. -/
def isFinite : JsNumber → Bool
  | num _ => true
  | _ => false

/-- model of `Number.isInteger` (false on NaN and the infinities). -/
def isInteger : JsNumber → Bool
  | num q => q.den = 1
  | _ => false

/-- model of the JavaScript comparison `x < r` for a finite literal `r`
(false when `x` is NaN). -/
def ltQ : JsNumber → ℚ → Bool
  | num q, r => q < r
  | nan, _ => false
  | inf, _ => false
  | ninf, _ => true

/-- model of the JavaScript comparison `x > r` for a finite literal `r`
(false when `x` is NaN). -/
def gtQ : JsNumber → ℚ → Bool
  | num q, r => r < q
  | nan, _ => false
  | inf, _ => true
  | ninf, _ => false

/-- model of `BigInt(bps)`; only ever applied after `validateBps` has checked
that the value is a finite integer, so the catch-all arm is unreachable. -/
def toInt : JsNumber → Int
  | num q => q.num
  | _ => 0

end JsNumber

/-- character for a decimal digit `d < 10`. -/
def digitChar (d : Nat) : Char := Char.ofNat (48 + d)

/-- fuelled big-endian decimal digit expansion of a natural number
(fuel `n + 1` always suffices for input `n`). -/
def natToDigits : Nat → Nat → List Char
  | 0, _ => []
  | fuel + 1, n => if n < 10 then [digitChar n] else natToDigits fuel (n / 10) ++ [digitChar (n % 10)]

/-- canonical decimal rendering of a natural number, as produced by
`BigInt.prototype.toString`. -/
def natToDecString (n : Nat) : String := String.mk (natToDigits (n + 1) n)

/-- canonical decimal rendering of an integer, as produced by
`BigInt.prototype.toString`. -/
def intToDecString (n : Int) : String :=
  if n < 0 then "-" ++ natToDecString n.natAbs else natToDecString n.natAbs

/-- numeric value of a big-endian list of decimal digit characters. -/
def digitsToNat (cs : List Char) : Nat := cs.foldl (fun a c => 10 * a + (c.toNat - 48)) 0

/-- model of the `BigInt(string)` constructor on strings consisting of an
optional sign followed by decimal digits (the only strings it is applied to
in the embedded code). -/
def parseIntString (s : String) : Int :=
  match s.data with
  | '-' :: rest => -(digitsToNat rest : Int)
  | cs => (digitsToNat cs : Int)

/-- model of the regular expression test `/^-?\d+$/.test(s)`. -/
def isValidIntegerString (s : String) : Bool :=
  match s.data with
  | '-' :: rest => !rest.isEmpty && rest.all Char.isDigit
  | cs => !cs.isEmpty && cs.all Char.isDigit

/-- model of the JavaScript test `amount.trim() === ""`: a string trims to
the empty string exactly when every character is whitespace. -/
def trimsToEmpty (s : String) : Bool := s.data.all Char.isWhitespace

/-- rendering of a `JsNumber` used when interpolating it into an error
message; for non-integral finite values the exact JavaScript decimal
formatting is approximated by a fraction. -/
def JsNumber.render : JsNumber → String
  | .nan => "NaN"
  | .inf => "Infinity"
  | .ninf => "-Infinity"
  | .num q =>
    if q.den = 1 then intToDecString q.num
    else intToDecString q.num ++ "/" ++ natToDecString q.den

/-- the `amount: string | bigint` union accepted by the fee calculator. -/
inductive AmountInput where
  | str (s : String)
  | big (n : Int)
deriving DecidableEq

/-- embedding of `parseAmount` from src/rule-engine.ts (the
`typeof amount !== "string"` arm is unrepresentable in the typed model). -/
def parseAmount : AmountInput → Except String Int
  | .big n => .ok n
  | .str amount =>
    if trimsToEmpty amount then .error "Invalid amount: empty string"
    else if !isValidIntegerString amount then
      .error ("Invalid amount: \"" ++ amount ++ "\" is not a valid integer string")
    else
      let result := parseIntString amount
      if result < 0 then .error ("Invalid amount: \"" ++ amount ++ "\" must be non-negative")
      else .ok result

/-- embedding of `MAX_BPS` from src/rule-engine.ts. -/
def MAX_BPS : ℚ := 10000

/-- embedding of `validateBps` from src/rule-engine.ts. -/
def validateBps (bps : JsNumber) : Except String Unit :=
  if !bps.isFinite then .error ("Invalid bps: expected a finite number, got " ++ bps.render)
  else if !bps.isInteger then .error ("Invalid bps: " ++ bps.render ++ " must be an integer")
  else if bps.ltQ 0 then .error ("Invalid bps: " ++ bps.render ++ " must be non-negative")
  else if bps.gtQ MAX_BPS then
    .error ("Invalid bps: " ++ bps.render ++ " exceeds maximum of 10000 (100%)")
  else .ok ()

/-- embedding of `BPS_DIVISOR` from src/rule-engine.ts. -/
def BPS_DIVISOR : Int := 10000

/-- embedding of `calculateFee` from src/rule-engine.ts; BigInt division
truncates toward zero (`Int.tdiv`). -/
def calculateFee (amount : AmountInput) (bps : JsNumber) : Except String String :=
  match parseAmount amount with
  | .error e => .error e
  | .ok amountBigInt =>
    match validateBps bps with
    | .error e => .error e
    | .ok _ => .ok (intToDecString ((amountBigInt * bps.toInt).tdiv BPS_DIVISOR))

/-- embedding of `calculateAmountAfterFee` from src/rule-engine.ts; the fee
string returned by `calculateFee` is read back with `BigInt(...)`. -/
def calculateAmountAfterFee (amount : AmountInput) (bps : JsNumber) : Except String String :=
  match parseAmount amount with
  | .error e => .error e
  | .ok amountBigInt =>
    match validateBps bps with
    | .error e => .error e
    | .ok _ =>
      match calculateFee (.big amountBigInt) bps with
      | .error e => .error e
      | .ok feeStr => .ok (intToDecString (amountBigInt - parseIntString feeStr))

/-- embedding of `TokenInfo` from src/types.ts. -/
structure TokenInfo where
  assetId : String
  blockchain : String
  symbol : String
  decimals : Int
deriving DecidableEq

/-- the `string | string[]` union used by matcher fields in src/types.ts. -/
inductive Pattern where
  | str (s : String)
  | arr (ss : List String)
deriving DecidableEq

/-- JavaScript truthiness of a `string | string[]` value: the empty string is
falsy, every other string and every array (even the empty one) is truthy. -/
def Pattern.truthy : Pattern → Bool
  | .str s => !(s = "")
  | .arr _ => true

/-- truthiness of an optional matcher field, as tested by `if (matcher.assetId)`. -/
def optTruthy : Option Pattern → Bool
  | some p => p.truthy
  | none => false

/-- embedding of `TokenMatcher` from src/types.ts. -/
structure TokenMatcher where
  blockchain : Option Pattern := none
  symbol : Option Pattern := none
  assetId : Option Pattern := none
deriving DecidableEq

/-- embedding of `RuleMatch` from src/types.ts (`in` is a Lean keyword, hence
the field names `in_` and `out`). -/
structure RuleMatch where
  in_ : TokenMatcher
  out : TokenMatcher
deriving DecidableEq

/-- embedding of `Fee` from src/types.ts. -/
structure Fee where
  type : String
  bps : JsNumber
  recipient : String
deriving DecidableEq

/-- the `Fee | Fee[]` union used for `rule.fee` and `default_fee`. -/
inductive FeeValue where
  | single (f : Fee)
  | list (fs : List Fee)
deriving DecidableEq

/-- embedding of `Rule` from src/types.ts (`match` is a Lean keyword, hence
the field name `match_`; `priority?: number` is modelled as an optional
integer, the only priorities the configuration format uses). -/
structure Rule where
  id : String
  enabled : Bool
  priority : Option Int := none
  description : Option String := none
  match_ : RuleMatch
  fee : FeeValue
  valid_from : Option String := none
  valid_until : Option String := none
deriving DecidableEq

/-- embedding of `FeeConfig` from src/types.ts. -/
structure FeeConfig where
  version : String
  default_fee : FeeValue
  rules : List Rule
deriving DecidableEq

/-- embedding of `SwapRequest` from src/types.ts. -/
structure SwapRequest where
  originAsset : String
  destinationAsset : String
  amount : Option String := none
deriving DecidableEq

/-- the `matchedBy` evidence record of `TokenMatchInfo` from src/types.ts;
an absent field is identified with `false`. -/
structure MatchedBy where
  assetId : Bool := false
  blockchain : Bool := false
  symbol : Bool := false
deriving DecidableEq

/-- embedding of `TokenMatchInfo` from src/types.ts. -/
structure TokenMatchInfo where
  token : TokenInfo
  matchedBy : MatchedBy
deriving DecidableEq

/-- embedding of the `matchDetails` record of `MatchResult` from src/types.ts. -/
structure MatchDetails where
  originToken : TokenInfo
  destinationToken : TokenInfo
  in_ : Option TokenMatchInfo := none
  out : Option TokenMatchInfo := none
deriving DecidableEq

/-- embedding of `MatchResult` from src/types.ts. -/
structure MatchResult where
  matched : Bool
  rule : Option Rule := none
  fee : FeeValue
  matchDetails : Option MatchDetails := none
deriving DecidableEq

/-- embedding of `matchesSinglePattern` from src/matcher.ts; the
`pattern.startsWith("!")` test together with `pattern.slice(1)` is expressed
by matching on the character list of the pattern. -/
def matchesSinglePattern (pattern value : String) : Bool :=
  if pattern = "*" then true
  else
    match pattern.data with
    | '!' :: rest => decide (value ≠ String.mk rest)
    | _ => decide (pattern = value)

/-- embedding of `matchesValue` from src/matcher.ts: an array pattern matches
when some element matches. -/
def matchesValue : Pattern → String → Bool
  | .arr ps, value => ps.any (fun p => matchesSinglePattern p value)
  | .str s, value => matchesSinglePattern s value

/-- one field of `matchesToken` from src/matcher.ts: `none` when the present
constraint fails, otherwise the flag recorded in `matchedBy` (true exactly
when the field was present and truthy, hence checked). -/
def checkMatcherField (pat : Option Pattern) (value : String) : Option Bool :=
  match pat with
  | some p => if p.truthy then (if matchesValue p value then some true else none) else some false
  | none => some false

/-- embedding of `matchesToken` from src/matcher.ts: the three constraints are
checked conjunctively in the order assetId, blockchain, symbol. -/
def matchesToken (matcher : TokenMatcher) (token : TokenInfo) : Option TokenMatchInfo :=
  match checkMatcherField matcher.assetId token.assetId with
  | none => none
  | some a =>
    match checkMatcherField matcher.blockchain token.blockchain with
    | none => none
    | some b =>
      match checkMatcherField matcher.symbol token.symbol with
      | none => none
      | some s => some { token := token, matchedBy := { assetId := a, blockchain := b, symbol := s } }

/-- the `rule.priority ?? 100` default used by the sort comparator. -/
def rulePriority (r : Rule) : Int := r.priority.getD 100

/-- one insertion step of the stable priority-descending sort: the new rule
goes after every already-placed rule of strictly higher priority and before
the first rule of lower-or-equal priority. -/
def insertByPriority (x : Rule) : List Rule → List Rule
  | [] => [x]
  | y :: ys => if rulePriority y > rulePriority x then y :: insertByPriority x ys else x :: y :: ys

/-- embedding of `sortRulesByPriority` from src/matcher.ts:
`Array.prototype.sort` with comparator `priorityB - priorityA` is (per
ES2019) a stable sort by priority descending, realised here as a stable
insertion sort. -/
def sortRulesByPriority : List Rule → List Rule
  | [] => []
  | x :: xs => insertByPriority x (sortRulesByPriority xs)

/-- embedding of `parseDate` from src/matcher.ts; `parse` models
`new Date(s).getTime()`, with `none` for an NaN result. -/
def parseDate (parse : String → Option Int) (dateStr fieldName : String) : Except String Int :=
  match parse dateStr with
  | some timestamp => .ok timestamp
  | none => .error ("Invalid " ++ fieldName ++ ": \"" ++ dateStr ++ "\" is not a valid date string")

/-- truthiness of the optional `valid_from` / `valid_until` strings, as
tested by `if (rule.valid_from)`. -/
def optStrTruthy : Option String → Bool
  | some s => !(s = "")
  | none => false

/-- the `valid_until` half of `isRuleValidNow` from src/matcher.ts, applied
to the rule's `valid_until` field. -/
def checkValidUntil (parse : String → Option Int) (now : Int) : Option String → Except String Bool
  | some s =>
    if s = "" then .ok true
    else
      match parseDate parse s "valid_until" with
      | .error e => .error e
      | .ok tUntil => if now > tUntil then .ok false else .ok true
  | none => .ok true

/-- embedding of `isRuleValidNow` from src/matcher.ts: the `valid_from` bound
is checked first and returning early on `now < from` skips parsing
`valid_until`, exactly as in the source. -/
def isRuleValidNow (parse : String → Option Int) (now : Int) (rule : Rule) : Except String Bool :=
  match rule.valid_from with
  | some s =>
    if s = "" then checkValidUntil parse now rule.valid_until
    else
      match parseDate parse s "valid_from" with
      | .error e => .error e
      | .ok tFrom => if now < tFrom then .ok false else checkValidUntil parse now rule.valid_until
  | none => checkValidUntil parse now rule.valid_until

/-- the rule-scanning loop of `match` from src/matcher.ts, over an already
sorted rule list. -/
def matchLoop (parse : String → Option Int) (now : Int) (originToken destinationToken : TokenInfo)
    (defaultFee : FeeValue) : List Rule → Except String MatchResult
  | [] =>
    .ok { matched := false, fee := defaultFee,
          matchDetails := some { originToken := originToken, destinationToken := destinationToken } }
  | rule :: rest =>
    if !rule.enabled then matchLoop parse now originToken destinationToken defaultFee rest
    else
      match isRuleValidNow parse now rule with
      | .error e => .error e
      | .ok valid =>
        if !valid then matchLoop parse now originToken destinationToken defaultFee rest
        else
          match matchesToken rule.match_.in_ originToken, matchesToken rule.match_.out destinationToken with
          | some inInfo, some outInfo =>
            .ok { matched := true, rule := some rule, fee := rule.fee,
                  matchDetails := some { originToken := originToken, destinationToken := destinationToken,
                                         in_ := some inInfo, out := some outInfo } }
          | _, _ => matchLoop parse now originToken destinationToken defaultFee rest

/-- embedding of the `RuleMatcher` state from src/matcher.ts. -/
structure RuleMatcher where
  rules : List Rule
  defaultFee : FeeValue
deriving DecidableEq

/-- embedding of the `RuleMatcher` constructor from src/matcher.ts: the rule
list is sorted once, here. -/
def RuleMatcher.make (config : FeeConfig) : RuleMatcher :=
  { defaultFee := config.default_fee, rules := sortRulesByPriority config.rules }

/-- embedding of `RuleMatcher.match` from src/matcher.ts (`match` is a Lean
keyword, hence the name); `registry` models `tokenRegistry.getToken`. -/
def RuleMatcher.matchRequest (m : RuleMatcher) (registry : String → Option TokenInfo)
    (parse : String → Option Int) (now : Int) (request : SwapRequest) : Except String MatchResult :=
  match registry request.originAsset, registry request.destinationAsset with
  | some originToken, some destinationToken =>
    matchLoop parse now originToken destinationToken m.defaultFee m.rules
  | _, _ => .ok { matched := false, fee := m.defaultFee }

/-- lowercase-alphanumeric character class `[a-z0-9]` of the NEAR account
regular expressions in src/validator.ts. -/
def isAlnumLower (c : Char) : Bool := ('a' ≤ c && c ≤ 'z') || ('0' ≤ c && c ≤ '9')

/-- separator character class `[-_]` of the NEAR account regular expression. -/
def isSepChar (c : Char) : Bool := c = '-' || c = '_'

/-- lowercase-hexadecimal character class `[a-f0-9]` of the implicit-account
regular expression. -/
def isHexLower (c : Char) : Bool := ('a' ≤ c && c ≤ 'f') || ('0' ≤ c && c ≤ '9')

/-- recogniser for `(?:[a-z\d]+[-_])*[a-z\d]+` (the first dot-separated part
of a NEAR account): alternating alphanumeric runs and single separators,
beginning and ending with an alphanumeric character. The Boolean state is
true when the next character must begin a new alphanumeric run. -/
def nearPartRun : Bool → List Char → Bool
  | true, [] => false
  | true, c :: cs => isAlnumLower c && nearPartRun false cs
  | false, [] => true
  | false, c :: cs =>
    if isAlnumLower c then nearPartRun false cs else isSepChar c && nearPartRun true cs

/-- recogniser for `[a-z\d]+[-_]*[a-z\d]+` (every later dot-separated part of
a NEAR account): an alphanumeric run, one optional block of separators, and a
final alphanumeric run — hence at least two characters. -/
def nearLaterPartOk (cs : List Char) : Bool :=
  let run := cs.takeWhile isAlnumLower
  let rest := cs.dropWhile isAlnumLower
  if run.isEmpty then false
  else if rest.isEmpty then decide (2 ≤ cs.length)
  else
    let tail := rest.dropWhile isSepChar
    !tail.isEmpty && tail.all isAlnumLower

/-- splitting a character list at the literal dots, as `String.split(".")`
would; the empty input yields one empty part. -/
def splitOnDot : List Char → List (List Char)
  | [] => [[]]
  | c :: cs =>
    let parts := splitOnDot cs
    if c = '.' then [] :: parts
    else
      match parts with
      | p :: ps => (c :: p) :: ps
      | [] => [[c]]

/-- recogniser for `NEAR_ACCOUNT_REGEX` from src/validator.ts:
`^(?:[a-z\d]+[-_])*[a-z\d]+(?:\.[a-z\d]+[-_]*[a-z\d]+)*$`. -/
def nearAccountRegexOk (s : String) : Bool :=
  match splitOnDot s.data with
  | [] => false
  | p :: ps => nearPartRun true p && ps.all nearLaterPartOk

/-- recogniser for `NEAR_IMPLICIT_ACCOUNT_REGEX` from src/validator.ts:
`^[a-f0-9]{64}$`. -/
def nearImplicitRegexOk (s : String) : Bool :=
  decide (s.data.length = 64) && s.data.all isHexLower

/-- embedding of `isValidNearAccount` from src/validator.ts. -/
def isValidNearAccount (account : String) : Bool :=
  if account.data.length < 2 || account.data.length > 64 then false
  else nearAccountRegexOk account || nearImplicitRegexOk account

/-- embedding of `ValidationError` from src/validator.ts. -/
structure ValidationError where
  path : String
  message : String
deriving DecidableEq

/-- embedding of `validateSingleFee` from src/validator.ts. Note that the
bps check is only `fee.bps < 0`: the validator has no upper bound on bps
(the `typeof fee.bps !== "number"` and `typeof fee.recipient !== "string"`
arms are unrepresentable in the typed model; a missing recipient is the
empty, falsy string). -/
def validateSingleFee (fee : Fee) (path : String) : List ValidationError :=
  (if fee.type ≠ "bps" then [⟨path ++ ".type", "fee.type must be \x27bps\x27"⟩] else [])
    ++ (if fee.bps.ltQ 0 then [⟨path ++ ".bps", "fee.bps must be a non-negative number"⟩] else [])
    ++ (if fee.recipient = "" then
          [⟨path ++ ".recipient", "fee.recipient is required and must be a string"⟩]
        else if !isValidNearAccount fee.recipient then
          [⟨path ++ ".recipient", "fee.recipient must be a valid NEAR account"⟩]
        else [])

/-- embedding of `validateFee` from src/validator.ts (in the typed model a
fee value is always an array or an object, so the trailing `fee is required`
arm is unreachable). -/
def validateFee (fee : FeeValue) (path : String) : List ValidationError :=
  match fee with
  | .list fs =>
    if fs.isEmpty then [⟨path, "fee array must not be empty"⟩]
    else (fs.enum).flatMap fun p =>
      validateSingleFee p.2 (path ++ "[" ++ natToDecString p.1 ++ "]")
  | .single f => validateSingleFee f path

/-- embedding of `validateTokenMatcher` from src/validator.ts: at least one
of the three fields must be present and truthy. -/
def validateTokenMatcher (matcher : TokenMatcher) (path : String) : List ValidationError :=
  if !(optTruthy matcher.blockchain || optTruthy matcher.symbol || optTruthy matcher.assetId) then
    [⟨path, "At least one of blockchain, symbol, or assetId must be defined"⟩]
  else []

/-- embedding of `validateRule` from src/validator.ts. Note that the rule's
`valid_from` / `valid_until` strings are not inspected at all (in the typed
model `enabled` is always a Boolean and `match`, `match.in`, `match.out` and
`fee` are always present, so those arms contribute nothing). -/
def validateRule (rule : Rule) (index : Nat) : List ValidationError :=
  let path := "rules[" ++ natToDecString index ++ "]"
  (if rule.id = "" then [⟨path ++ ".id", "id is required and must be a string"⟩] else [])
    ++ (match rule.priority with
        | some p => if p < 0 then [⟨path ++ ".priority", "priority must be a non-negative number"⟩] else []
        | none => [])
    ++ validateTokenMatcher rule.match_.in_ (path ++ ".match.in")
    ++ validateTokenMatcher rule.match_.out (path ++ ".match.out")
    ++ validateFee rule.fee (path ++ ".fee")

/-- the rule loop of `validateConfig`, carrying the running index and the set
of rule ids seen so far (ids are recorded, and duplicates reported, only for
truthy — non-empty — ids, as in the source). -/
def validateRulesLoop : List Rule → Nat → List String → List ValidationError
  | [], _, _ => []
  | rule :: rest, i, seen =>
    validateRule rule i
      ++ (if rule.id ≠ "" then
            (if seen.contains rule.id then
               [⟨"rules[" ++ natToDecString i ++ "].id", "Duplicate rule id: " ++ rule.id⟩]
             else [])
          else [])
      ++ validateRulesLoop rest (i + 1) (if rule.id ≠ "" then rule.id :: seen else seen)

/-- embedding of `ValidationResult` from src/validator.ts. -/
structure ValidationResult where
  valid : Bool
  errors : List ValidationError
deriving DecidableEq

/-- embedding of `validateConfig` from src/validator.ts (in the typed model
`default_fee` is always present and `rules` is always an array). -/
def validateConfig (config : FeeConfig) : ValidationResult :=
  let errors :=
    (if config.version = "" then [⟨"version", "version is required and must be a string"⟩] else [])
      ++ validateFee config.default_fee "default_fee"
      ++ validateRulesLoop config.rules 0 []
  { valid := errors.isEmpty, errors := errors }

/-- embedding of the `RuleEngine` state from src/rule-engine.ts (the token
registry collaborator is passed separately at match time). -/
structure RuleEngine where
  feeConfig : FeeConfig
  matcher : RuleMatcher
deriving DecidableEq

/-- embedding of the `RuleEngine` constructor from src/rule-engine.ts: it
throws, so construction fails, exactly when `validateConfig` reports the
configuration invalid. -/
def RuleEngine.create (feeConfig : FeeConfig) : Except String RuleEngine :=
  let validation := validateConfig feeConfig
  if validation.valid then
    .ok { feeConfig := feeConfig, matcher := RuleMatcher.make feeConfig }
  else
    .error ("Invalid fee config: "
      ++ String.intercalate ", " (validation.errors.map fun e => e.path ++ ": " ++ e.message))

/-- eligibility of a rule for selection against a resolved origin and
destination token: enabled, currently valid and both token matchers succeed.
An erroring validity check counts as not eligible; the selection theorems
assume parseable dates, under which this case does not arise. -/
def ruleEligible (parse : String → Option Int) (now : Int) (originToken destinationToken : TokenInfo)
    (r : Rule) : Bool :=
  r.enabled
    && (match isRuleValidNow parse now r with
        | .ok b => b
        | .error _ => false)
    && (matchesToken r.match_.in_ originToken).isSome
    && (matchesToken r.match_.out destinationToken).isSome

/-- selection rule as the specification words it, scanning the rules in
ORIGINAL configuration order: keep the earliest eligible rule seen so far and
replace it only when a strictly higher-priority eligible rule appears later —
a higher-priority matching rule always wins, and among equal-priority
matching rules the earliest in the configuration wins. -/
def selectRuleSpec (p : Rule → Bool) : List Rule → Option Rule
  | [] => none
  | x :: xs =>
    if p x then
      match selectRuleSpec p xs with
      | some b => if rulePriority b > rulePriority x then some b else some x
      | none => some x
    else selectRuleSpec p xs

/-- the match result produced for a given selection outcome (resolved
tokens in hand). -/
def resultOfSelection (originToken destinationToken : TokenInfo) (defaultFee : FeeValue) :
    Option Rule → MatchResult
  | some r =>
    { matched := true, rule := some r, fee := r.fee,
      matchDetails := some { originToken := originToken, destinationToken := destinationToken,
                             in_ := matchesToken r.match_.in_ originToken,
                             out := matchesToken r.match_.out destinationToken } }
  | none =>
    { matched := false, fee := defaultFee,
      matchDetails := some { originToken := originToken, destinationToken := destinationToken } }

/-- a validity-window bound parses: it is absent, empty (falsy, hence
skipped), or the date parser accepts it. -/
def boundParses (parse : String → Option Int) : Option String → Bool
  | none => true
  | some s => s = "" || (parse s).isSome

/-- both validity-window bounds of a rule parse, so that the rule's validity
check cannot throw. -/
def datesParse (parse : String → Option Int) (r : Rule) : Bool :=
  boundParses parse r.valid_from && boundParses parse r.valid_until

/-- the effective numeric value of a validity-window bound: `some none` when
the bound is absent or empty (unbounded on that side), `some (some t)` when
it parses to the instant `t`, and `none` when it is unparseable. -/
def windowBound (parse : String → Option Int) : Option String → Option (Option Int)
  | none => some none
  | some s =>
    if s = "" then some none
    else
      match parse s with
      | some t => some (some t)
      | none => none

lemma digitChar_toNat {d : Nat} (h : d < 10) : (digitChar d).toNat = 48 + d := by
  interval_cases d <;> decide

lemma digitChar_isDigit {d : Nat} (h : d < 10) : (digitChar d).isDigit = true := by
  interval_cases d <;> decide

lemma digitChar_ne_dash {d : Nat} (h : d < 10) : digitChar d ≠ '-' := by
  interval_cases d <;> decide

lemma isDigit_not_whitespace {c : Char} (h : c.isDigit = true) : c.isWhitespace = false := by
  by_contra hw
  rw [Bool.not_eq_false] at hw
  simp only [Char.isWhitespace, Bool.or_eq_true, decide_eq_true_eq] at hw
  rcases hw with ((h1 | h1) | h1) | h1 <;> subst h1 <;> simp [Char.isDigit] at h

lemma isDigit_ne_dash {c : Char} (h : c.isDigit = true) : c ≠ '-' := by
  intro h1
  subst h1
  simp [Char.isDigit] at h

lemma digitsToNat_append (cs : List Char) (c : Char) :
    digitsToNat (cs ++ [c]) = 10 * digitsToNat cs + (c.toNat - 48) := by
  simp [digitsToNat, List.foldl_append]

lemma natToDigits_val {fuel n : Nat} (h : n < fuel) :
    digitsToNat (natToDigits fuel n) = n := by
  induction fuel generalizing n with
  | zero => omega
  | succ fuel ih =>
    rw [natToDigits]
    by_cases h10 : n < 10
    · simp only [if_pos h10]
      show 10 * 0 + ((digitChar n).toNat - 48) = n
      rw [digitChar_toNat h10]
      omega
    · simp only [if_neg h10]
      rw [digitsToNat_append, ih (by omega), digitChar_toNat (Nat.mod_lt n (by omega))]
      omega

lemma natToDigits_all_digit {fuel n : Nat} (h : n < fuel) :
    ∀ c ∈ natToDigits fuel n, c.isDigit = true := by
  induction fuel generalizing n with
  | zero => omega
  | succ fuel ih =>
    rw [natToDigits]
    by_cases h10 : n < 10
    · simp only [if_pos h10, List.mem_singleton]
      intro c hc
      subst hc
      exact digitChar_isDigit h10
    · simp only [if_neg h10, List.mem_append, List.mem_singleton]
      intro c hc
      rcases hc with hc | hc
      · exact ih (by omega) c hc
      · subst hc
        exact digitChar_isDigit (Nat.mod_lt n (by omega))

lemma natToDigits_ne_nil {fuel n : Nat} (h : n < fuel) : natToDigits fuel n ≠ [] := by
  cases fuel with
  | zero => omega
  | succ fuel =>
    rw [natToDigits]
    by_cases h10 : n < 10 <;> simp [h10]

lemma natToDecString_data (n : Nat) : (natToDecString n).data = natToDigits (n + 1) n := rfl

lemma parseIntString_natToDecString (n : Nat) : parseIntString (natToDecString n) = n := by
  rw [parseIntString]
  rw [natToDecString_data]
  have hall := natToDigits_all_digit (Nat.lt_succ_self n)
  have hval := natToDigits_val (Nat.lt_succ_self n)
  cases hds : natToDigits (n + 1) n with
  | nil => exact absurd hds (natToDigits_ne_nil (Nat.lt_succ_self n))
  | cons c cs =>
    have hc : c.isDigit = true := hall c (by rw [hds]; exact List.mem_cons_self c cs)
    have hne : c ≠ '-' := isDigit_ne_dash hc
    rw [hds] at hval
    split
    · next heq =>
      exact absurd (by rw [List.cons.injEq] at heq; rw [heq.1]) hne
    · rw [hval]

lemma isValidIntegerString_natToDecString (n : Nat) :
    isValidIntegerString (natToDecString n) = true := by
  rw [isValidIntegerString, natToDecString_data]
  have hall := natToDigits_all_digit (Nat.lt_succ_self n)
  cases hds : natToDigits (n + 1) n with
  | nil => exact absurd hds (natToDigits_ne_nil (Nat.lt_succ_self n))
  | cons c cs =>
    have hc : c.isDigit = true := hall c (by rw [hds]; exact List.mem_cons_self c cs)
    have hne : c ≠ '-' := isDigit_ne_dash hc
    rw [hds] at hall
    split
    · next heq =>
      exact absurd (by rw [List.cons.injEq] at heq; rw [heq.1]) hne
    · simp only [Bool.and_eq_true, List.all_eq_true]
      exact ⟨by simp, fun c hc => hall c hc⟩

lemma trimsToEmpty_natToDecString (n : Nat) : trimsToEmpty (natToDecString n) = false := by
  rw [trimsToEmpty, natToDecString_data]
  have hall := natToDigits_all_digit (Nat.lt_succ_self n)
  cases hds : natToDigits (n + 1) n with
  | nil => exact absurd hds (natToDigits_ne_nil (Nat.lt_succ_self n))
  | cons c cs =>
    have hc : c.isDigit = true := hall c (by rw [hds]; exact List.mem_cons_self c cs)
    simp only [List.all_cons, Bool.and_eq_false_iff]
    left
    exact isDigit_not_whitespace hc

lemma intToDecString_ofNat (n : Nat) : intToDecString (n : Int) = natToDecString n := by
  rw [intToDecString]
  rw [if_neg (by omega)]
  rw [Int.natAbs_ofNat]

lemma parseAmount_natToDecString (n : Nat) :
    parseAmount (.str (natToDecString n)) = .ok (n : Int) := by
  rw [parseAmount]
  rw [trimsToEmpty_natToDecString, isValidIntegerString_natToDecString]
  simp only [Bool.not_true, if_neg (by simp : ¬ (false = true))]
  rw [parseIntString_natToDecString]
  rw [if_neg (by omega)]

lemma validateBps_natCast {b : Nat} (hb : b ≤ 10000) : validateBps (.num (b : ℚ)) = .ok () := by
  have h1 : JsNumber.isFinite (.num (b : ℚ)) = true := rfl
  have h2 : JsNumber.isInteger (.num (b : ℚ)) = true := by
    simp [JsNumber.isInteger, Rat.den_natCast]
  have h3 : JsNumber.ltQ (.num (b : ℚ)) 0 = false := by
    simp only [JsNumber.ltQ, decide_eq_false_iff_not, not_lt]
    exact Nat.cast_nonneg b
  have h4 : JsNumber.gtQ (.num (b : ℚ)) MAX_BPS = false := by
    simp only [JsNumber.gtQ, MAX_BPS, decide_eq_false_iff_not, not_lt]
    exact_mod_cast hb
  rw [validateBps, h1, h2, h3, h4]
  rfl

lemma feeAmount_le (a : Nat) {b : Nat} (hb : b ≤ 10000) : a * b / 10000 ≤ a :=
  calc a * b / 10000 ≤ a * 10000 / 10000 := Nat.div_le_div_right (Nat.mul_le_mul_left a hb)
  _ = a := Nat.mul_div_cancel a (by norm_num)

lemma tdiv_bps_eq (a b : Nat) :
    ((a : Int) * JsNumber.toInt (.num (b : ℚ))).tdiv BPS_DIVISOR = ((a * b / 10000 : Nat) : Int) := by
  show ((a : Int) * ((b : ℚ)).num).tdiv 10000 = _
  rw [Rat.num_natCast]
  rw [show ((a : Int) * (b : Int)) = ((a * b : Nat) : Int) by push_cast; ring]
  exact (Int.ofNat_tdiv (a * b) 10000).symm

lemma calculateFee_big (a : Nat) {b : Nat} (hb : b ≤ 10000) :
    calculateFee (.big (a : Int)) (.num (b : ℚ)) = .ok (natToDecString (a * b / 10000)) := by
  rw [calculateFee]
  show (match validateBps (.num (b : ℚ)) with
        | .error e => Except.error e
        | .ok _ => Except.ok (intToDecString (((a : Int) * JsNumber.toInt (.num (b : ℚ))).tdiv BPS_DIVISOR))) = _
  rw [validateBps_natCast hb, tdiv_bps_eq, intToDecString_ofNat]

lemma calculateFee_parseOk {amount : AmountInput} {v : Int} (h : parseAmount amount = .ok v)
    (bps : JsNumber) : calculateFee amount bps = calculateFee (.big v) bps := by
  rw [calculateFee, calculateFee, h]
  rfl

lemma calculateAmountAfterFee_big (a : Nat) {b : Nat} (hb : b ≤ 10000) :
    calculateAmountAfterFee (.big (a : Int)) (.num (b : ℚ)) =
      .ok (natToDecString (a - a * b / 10000)) := by
  rw [calculateAmountAfterFee]
  show (match validateBps (.num (b : ℚ)) with
        | .error e => Except.error e
        | .ok _ =>
          match calculateFee (.big (a : Int)) (.num (b : ℚ)) with
          | .error e => Except.error e
          | .ok feeStr => Except.ok (intToDecString ((a : Int) - parseIntString feeStr))) = _
  rw [validateBps_natCast hb, calculateFee_big a hb]
  show Except.ok (intToDecString ((a : Int) - parseIntString (natToDecString (a * b / 10000)))) = _
  rw [parseIntString_natToDecString]
  have hle : a * b / 10000 ≤ a := feeAmount_le a hb
  rw [show (a : Int) - ((a * b / 10000 : Nat) : Int) = ((a - a * b / 10000 : Nat) : Int) by omega]
  rw [intToDecString_ofNat]

lemma calculateAmountAfterFee_parseOk {amount : AmountInput} {v : Int}
    (h : parseAmount amount = .ok v) (bps : JsNumber) :
    calculateAmountAfterFee amount bps = calculateAmountAfterFee (.big v) bps := by
  rw [calculateAmountAfterFee, calculateAmountAfterFee, h]
  rfl

/-- C3: for every non-negative integer amount `a` — given as its decimal
string or as a bigint — and every integer bps `b` in `[0, 10000]`,
`calculateFee` returns the decimal string of `floor(a * b / 10000)`, computed
with exact integer arithmetic truncating toward zero (the last conjunct
identifies the truncating quotient with the floor quotient). The particular
examples of the claim are the witness theorem. -/
theorem calculateFee_exact (a b : Nat) (hb : b ≤ 10000) :
    calculateFee (.str (natToDecString a)) (.num (b : ℚ)) = .ok (natToDecString (a * b / 10000)) ∧
    calculateFee (.big (a : Int)) (.num (b : ℚ)) = .ok (natToDecString (a * b / 10000)) ∧
    ((a * b / 10000 : Nat) : Int) = Int.fdiv ((a : Int) * (b : Int)) 10000 := by
  refine ⟨?_, calculateFee_big a hb, ?_⟩
  · rw [calculateFee_parseOk (parseAmount_natToDecString a)]
    exact calculateFee_big a hb
  · rw [Int.fdiv_eq_ediv _ (by norm_num)]
    rw [← Int.tdiv_eq_ediv (by positivity) (by norm_num)]
    rw [show ((a : Int) * (b : Int)) = ((a * b : Nat) : Int) by push_cast; ring]
    exact (Int.ofNat_tdiv (a * b) 10000).symm

/-- witness for C3: the concrete examples named by the claim. -/
theorem calculateFee_exact_witness :
    calculateFee (.str "1000000") (.num ((20 : Nat) : ℚ)) = .ok "2000" ∧
    calculateFee (.str "1000000") (.num ((1 : Nat) : ℚ)) = .ok "100" ∧
    calculateFee (.str "100") (.num ((3 : Nat) : ℚ)) = .ok "0" ∧
    calculateFee (.str "10000") (.num ((3 : Nat) : ℚ)) = .ok "3" := by
  refine ⟨?_, ?_, ?_, ?_⟩
  · have h := (calculateFee_exact 1000000 20 (by decide)).1
    rw [show natToDecString 1000000 = "1000000" from rfl,
        show natToDecString (1000000 * 20 / 10000) = "2000" from rfl] at h
    exact h
  · have h := (calculateFee_exact 1000000 1 (by decide)).1
    rw [show natToDecString 1000000 = "1000000" from rfl,
        show natToDecString (1000000 * 1 / 10000) = "100" from rfl] at h
    exact h
  · have h := (calculateFee_exact 100 3 (by decide)).1
    rw [show natToDecString 100 = "100" from rfl,
        show natToDecString (100 * 3 / 10000) = "0" from rfl] at h
    exact h
  · have h := (calculateFee_exact 10000 3 (by decide)).1
    rw [show natToDecString 10000 = "10000" from rfl,
        show natToDecString (10000 * 3 / 10000) = "3" from rfl] at h
    exact h

/-- C4: for all non-negative integer amounts and all bps in `[0, 10000]`, the
fee and the post-fee remainder returned by the two calculators partition the
amount exactly: read back as integers they sum to the amount. -/
theorem fee_plus_remainder_exact (a b : Nat) (hb : b ≤ 10000) :
    ∃ feeStr remStr,
      calculateFee (.big (a : Int)) (.num (b : ℚ)) = .ok feeStr ∧
      calculateAmountAfterFee (.big (a : Int)) (.num (b : ℚ)) = .ok remStr ∧
      parseIntString feeStr + parseIntString remStr = (a : Int) := by
  refine ⟨_, _, calculateFee_big a hb, calculateAmountAfterFee_big a hb, ?_⟩
  rw [parseIntString_natToDecString, parseIntString_natToDecString]
  have hle : a * b / 10000 ≤ a := feeAmount_le a hb
  omega

/-- witness for C4 at `a = 1000000`, `b = 20`. -/
theorem fee_plus_remainder_exact_witness :
    ∃ feeStr remStr,
      calculateFee (.big ((1000000 : Nat) : Int)) (.num ((20 : Nat) : ℚ)) = .ok feeStr ∧
      calculateAmountAfterFee (.big ((1000000 : Nat) : Int)) (.num ((20 : Nat) : ℚ)) = .ok remStr ∧
      parseIntString feeStr + parseIntString remStr = ((1000000 : Nat) : Int) :=
  fee_plus_remainder_exact 1000000 20 (by decide)

/-- a bps value the contract rejects: non-integer, negative, above 10000, or
not finite. -/
def badBps : JsNumber → Prop
  | .num q => q.den ≠ 1 ∨ q < 0 ∨ 10000 < q
  | .nan => True
  | .inf => True
  | .ninf => True

lemma validateBps_bad {bps : JsNumber} (h : badBps bps) : ∃ e, validateBps bps = .error e := by
  cases bps with
  | nan => exact ⟨_, rfl⟩
  | inf => exact ⟨_, rfl⟩
  | ninf => exact ⟨_, rfl⟩
  | num q =>
    rw [validateBps]
    by_cases hden : q.den = 1
    · have h2 : JsNumber.isInteger (.num q) = true := by simp [JsNumber.isInteger, hden]
      rw [h2]
      by_cases hneg : q < 0
      · have h3 : JsNumber.ltQ (.num q) 0 = true := by simp [JsNumber.ltQ, hneg]
        rw [h3]
        exact ⟨_, rfl⟩
      · have hbig : 10000 < q := by
          rcases h with h | h | h
          · exact absurd hden h
          · exact absurd h hneg
          · exact h
        have h3 : JsNumber.ltQ (.num q) 0 = false := by simp [JsNumber.ltQ, hneg]
        have h4 : JsNumber.gtQ (.num q) MAX_BPS = true := by simp [JsNumber.gtQ, MAX_BPS, hbig]
        rw [h3, h4]
        exact ⟨_, rfl⟩
    · have h2 : JsNumber.isInteger (.num q) = false := by simp [JsNumber.isInteger, hden]
      rw [h2]
      exact ⟨_, rfl⟩

lemma parseAmount_malformed {s : String} (h : isValidIntegerString s = false) :
    ∃ e, parseAmount (.str s) = .error e := by
  rw [parseAmount]
  by_cases ht : trimsToEmpty s
  · rw [if_pos ht]
    exact ⟨_, rfl⟩
  · rw [if_neg ht, h]
    exact ⟨_, rfl⟩

/-- C8: `calculateFee` and `calculateAmountAfterFee` fail fast with an error
— never clamping or coercing — for every bps that is non-finite, non-integer
or outside `[0, 10000]`, and for every malformed amount string (one that
does not consist of an optional sign followed by decimal digits; this
includes the empty string and strings with leading or trailing whitespace). -/
theorem feeCalculators_fail_fast :
    (∀ (amount : AmountInput) (bps : JsNumber), badBps bps →
       (∃ e, calculateFee amount bps = .error e) ∧
       (∃ e, calculateAmountAfterFee amount bps = .error e)) ∧
    (∀ (s : String) (bps : JsNumber), isValidIntegerString s = false →
       (∃ e, calculateFee (.str s) bps = .error e) ∧
       (∃ e, calculateAmountAfterFee (.str s) bps = .error e)) := by
  constructor
  · intro amount bps hb
    obtain ⟨e, he⟩ := validateBps_bad hb
    constructor
    · cases hpa : parseAmount amount with
      | error e2 => exact ⟨e2, by rw [calculateFee, hpa]⟩
      | ok v => exact ⟨e, by rw [calculateFee, hpa, he]⟩
    · cases hpa : parseAmount amount with
      | error e2 => exact ⟨e2, by rw [calculateAmountAfterFee, hpa]⟩
      | ok v => exact ⟨e, by rw [calculateAmountAfterFee, hpa, he]⟩
  · intro s bps hs
    obtain ⟨e, he⟩ := parseAmount_malformed hs
    exact ⟨⟨e, by rw [calculateFee, he]⟩, ⟨e, by rw [calculateAmountAfterFee, he]⟩⟩

/-- witness for C8: NaN bps with a well-formed amount, and a malformed amount
string with a well-formed bps. -/
theorem feeCalculators_fail_fast_witness :
    ((∃ e, calculateFee (.big 5) .nan = .error e) ∧
     (∃ e, calculateAmountAfterFee (.big 5) .nan = .error e)) ∧
    ((∃ e, calculateFee (.str " 100") (.num ((20 : Nat) : ℚ)) = .error e) ∧
     (∃ e, calculateAmountAfterFee (.str " 100") (.num ((20 : Nat) : ℚ)) = .error e)) :=
  ⟨feeCalculators_fail_fast.1 (.big 5) .nan True.intro,
   feeCalculators_fail_fast.2 " 100" (.num ((20 : Nat) : ℚ)) (by decide)⟩

lemma bang_append_data (v : String) : ("!" ++ v).data = '!' :: v.data := by
  rw [String.data_append]
  rfl

lemma bang_append_ne_star (v : String) : ("!" ++ v) ≠ "*" := by
  intro h
  have hd := congrArg String.data h
  rw [bang_append_data] at hd
  simp at hd

lemma matchesSinglePattern_star (x : String) : matchesSinglePattern "*" x = true := by
  rw [matchesSinglePattern, if_pos rfl]

lemma matchesSinglePattern_bang (v x : String) :
    matchesSinglePattern ("!" ++ v) x = decide (x ≠ v) := by
  rw [matchesSinglePattern, if_neg (bang_append_ne_star v)]
  rw [bang_append_data]
  show decide (x ≠ String.mk v.data) = decide (x ≠ v)
  rfl

lemma matchesSinglePattern_literal (lit x : String) (h1 : lit ≠ "*")
    (h2 : lit.data.head? ≠ some '!') : matchesSinglePattern lit x = decide (lit = x) := by
  rw [matchesSinglePattern, if_neg h1]
  rcases hd : lit.data with _ | ⟨c, cs⟩
  · rfl
  · rw [hd] at h2
    split
    · next heq =>
      rw [List.cons.injEq] at heq
      have hc : c = '!' := heq.1
      subst hc
      exact absurd rfl h2
    · rfl

/-- C2: semantics of the pattern matcher. The wildcard pattern matches every
value; a negation pattern matches exactly the values different from its
literal; a plain literal (not the wildcard, not starting with a bang)
matches exactly itself, case-sensitively with no normalisation; an array
pattern matches exactly when some element matches (OR semantics), and on the
claim's example `["arb", "!eth"]` matches "arb" and "polygon" but not
"eth". -/
theorem matchesValue_semantics :
    (∀ x, matchesValue (.str "*") x = true) ∧
    (∀ v x, matchesValue (.str ("!" ++ v)) x = decide (x ≠ v)) ∧
    (∀ lit x, lit ≠ "*" → lit.data.head? ≠ some '!' →
       matchesValue (.str lit) x = decide (lit = x)) ∧
    (∀ ps x, matchesValue (.arr ps) x = true ↔ ∃ p ∈ ps, matchesSinglePattern p x = true) ∧
    (matchesValue (.arr ["arb", "!eth"]) "arb" = true ∧
     matchesValue (.arr ["arb", "!eth"]) "polygon" = true ∧
     matchesValue (.arr ["arb", "!eth"]) "eth" = false) := by
  refine ⟨fun x => matchesSinglePattern_star x,
          fun v x => matchesSinglePattern_bang v x,
          fun lit x h1 h2 => matchesSinglePattern_literal lit x h1 h2,
          fun ps x => ?_, by decide, by decide, by decide⟩
  simp [matchesValue, List.any_eq_true]

/-- witness for C2: instances of the quantified parts at concrete strings. -/
theorem matchesValue_semantics_witness :
    matchesValue (.str "*") "anything" = true ∧
    matchesValue (.str ("!" ++ "eth")) "polygon" = decide ("polygon" ≠ "eth") ∧
    matchesValue (.str "usdc") "USDC" = decide ("usdc" = "USDC") := by
  refine ⟨matchesValue_semantics.1 "anything",
          matchesValue_semantics.2.1 "eth" "polygon",
          matchesValue_semantics.2.2.1 "usdc" "USDC" (by decide) (by decide)⟩

/-- C7: when the registry fails to resolve the origin or the destination
asset, the match result is no-match with the configured default fee, carries
no match evidence at all (`matchDetails` absent, hence no per-token
evidence), and no error is raised. -/
theorem match_unresolved_asset (config : FeeConfig) (registry : String → Option TokenInfo)
    (parse : String → Option Int) (now : Int) (request : SwapRequest)
    (h : registry request.originAsset = none ∨ registry request.destinationAsset = none) :
    (RuleMatcher.make config).matchRequest registry parse now request =
      .ok { matched := false, fee := config.default_fee } := by
  rw [RuleMatcher.matchRequest]
  rcases h with h | h
  · rw [h]
    cases hd : registry request.destinationAsset <;> rfl
  · rw [h]
    cases ho : registry request.originAsset <;> rfl

/-- witness for C7: a registry with no tokens at all. -/
theorem match_unresolved_asset_witness :
    (RuleMatcher.make { version := "1.0.0", default_fee := .single ⟨"bps", .num 20, "fees.near"⟩,
                        rules := [] }).matchRequest (fun _ => none) (fun _ => none) 0
        { originAsset := "nep141:usdc.near", destinationAsset := "nep141:usdt.near" } =
      .ok { matched := false, fee := .single ⟨"bps", .num 20, "fees.near"⟩ } :=
  match_unresolved_asset _ (fun _ => none) (fun _ => none) 0 _ (Or.inl rfl)

lemma parseDate_ok {parse : String → Option Int} {s : String} {t : Int}
    (hp : parse s = some t) (fieldName : String) : parseDate parse s fieldName = .ok t := by
  rw [parseDate, hp]

lemma checkValidUntil_window (parse : String → Option Int) (now : Int) {vu : Option String}
    (uB : Option Int) (hu : windowBound parse vu = some uB) :
    checkValidUntil parse now vu = .ok (uB.all fun t => decide (now ≤ t)) := by
  cases vu with
  | none =>
    rw [windowBound] at hu
    injection hu with h
    subst h
    rfl
  | some s =>
    rw [windowBound] at hu
    by_cases he : s = ""
    · rw [if_pos he] at hu
      injection hu with h
      subst h
      rw [checkValidUntil, if_pos he]
      rfl
    · rw [if_neg he] at hu
      cases hp : parse s with
      | none => rw [hp] at hu; cases hu
      | some t =>
        rw [hp] at hu
        injection hu with h
        subst h
        rw [checkValidUntil, if_neg he, parseDate_ok hp]
        show (if now > t then Except.ok false else Except.ok true) = _
        by_cases hn : now > t
        · rw [if_pos hn]
          have hx : (Option.all (fun t => decide (now ≤ t)) (some t)) = false := by
            simp [Option.all]
            omega
          rw [hx]
        · rw [if_neg hn]
          have hx : (Option.all (fun t => decide (now ≤ t)) (some t)) = true := by
            simp [Option.all]
            omega
          rw [hx]

/-- C9: a rule's validity window is inclusive on both bounds, each bound is
optional (absent meaning unbounded on that side), and the rule passes the
time check exactly when `valid_from ≤ now ≤ valid_until`; in particular with
a future `valid_from` the check fails strictly before that instant and
passes at and after it. -/
theorem isRuleValidNow_window (parse : String → Option Int) (now : Int) (r : Rule)
    (fB uB : Option Int)
    (hf : windowBound parse r.valid_from = some fB)
    (hu : windowBound parse r.valid_until = some uB) :
    isRuleValidNow parse now r =
      .ok ((fB.all fun t => decide (t ≤ now)) && (uB.all fun t => decide (now ≤ t))) := by
  unfold isRuleValidNow
  rcases hs : r.valid_from with _ | ⟨s⟩
  · rw [hs] at hf
    rw [windowBound] at hf
    injection hf with h
    subst h
    show checkValidUntil parse now r.valid_until = _
    rw [checkValidUntil_window parse now _ hu]
    rfl
  · rw [hs] at hf
    rw [windowBound] at hf
    show (if s = "" then checkValidUntil parse now r.valid_until
          else
            match parseDate parse s "valid_from" with
            | .error e => .error e
            | .ok tFrom =>
              if now < tFrom then .ok false else checkValidUntil parse now r.valid_until) = _
    by_cases he : s = ""
    · rw [if_pos he]
      rw [if_pos he] at hf
      injection hf with h
      subst h
      rw [checkValidUntil_window parse now _ hu]
      rfl
    · rw [if_neg he]
      rw [if_neg he] at hf
      cases hp : parse s with
      | none => rw [hp] at hf; cases hf
      | some t =>
        rw [hp] at hf
        injection hf with h
        subst h
        rw [parseDate_ok hp]
        show (if now < t then Except.ok false else checkValidUntil parse now r.valid_until) = _
        by_cases hn : now < t
        · rw [if_pos hn]
          have hx : (Option.all (fun t => decide (t ≤ now)) (some t)) = false := by
            simp [Option.all]
            omega
          rw [hx, Bool.false_and]
        · rw [if_neg hn]
          rw [checkValidUntil_window parse now _ hu]
          have hx : (Option.all (fun t => decide (t ≤ now)) (some t)) = true := by
            simp [Option.all]
            omega
          rw [hx, Bool.true_and]

/-- witness for C9: a rule valid from instant 1000 (with no upper bound) is
rejected at instant 999 and accepted at instant 1000. -/
theorem isRuleValidNow_window_witness :
    (isRuleValidNow (fun s => if s = "2024-01-01T00:00:01.000Z" then some 1000 else none) 999
       { id := "r", enabled := true,
         match_ := { in_ := { symbol := some (.str "USDC") },
                     out := { symbol := some (.str "USDC") } },
         fee := .single ⟨"bps", .num 10, "fees.near"⟩,
         valid_from := some "2024-01-01T00:00:01.000Z" } = .ok false) ∧
    (isRuleValidNow (fun s => if s = "2024-01-01T00:00:01.000Z" then some 1000 else none) 1000
       { id := "r", enabled := true,
         match_ := { in_ := { symbol := some (.str "USDC") },
                     out := { symbol := some (.str "USDC") } },
         fee := .single ⟨"bps", .num 10, "fees.near"⟩,
         valid_from := some "2024-01-01T00:00:01.000Z" } = .ok true) := by
  constructor
  · rw [isRuleValidNow_window _ 999 _ (some 1000) none (by decide) (by decide)]
    rfl
  · rw [isRuleValidNow_window _ 1000 _ (some 1000) none (by decide) (by decide)]
    rfl

/-- the consistency invariant of C10 relative to a default fee. -/
def resultInvariant (defaultFee : FeeValue) (res : MatchResult) : Prop :=
  (res.matched = true ↔ res.rule.isSome) ∧
  (∀ r, res.rule = some r → res.fee = r.fee) ∧
  (res.matched = false → res.fee = defaultFee ∧ res.rule = none)

lemma matchLoop_invariant (parse : String → Option Int) (now : Int)
    (originToken destinationToken : TokenInfo) (defaultFee : FeeValue) (l : List Rule)
    (res : MatchResult)
    (h : matchLoop parse now originToken destinationToken defaultFee l = .ok res) :
    resultInvariant defaultFee res := by
  induction l with
  | nil =>
    rw [matchLoop] at h
    cases h
    exact ⟨by simp, by simp, by simp⟩
  | cons rule rest ih =>
    rw [matchLoop] at h
    by_cases hen : rule.enabled
    · rw [hen] at h
      simp only [Bool.not_true, if_neg (by simp : ¬ (false = true))] at h
      cases hv : isRuleValidNow parse now rule with
      | error e => rw [hv] at h; cases h
      | ok valid =>
        rw [hv] at h
        by_cases hval : valid
        · rw [hval] at h
          simp only [Bool.not_true, if_neg (by simp : ¬ (false = true))] at h
          cases hin : matchesToken rule.match_.in_ originToken with
          | none => rw [hin] at h; exact ih h
          | some inInfo =>
            cases hout : matchesToken rule.match_.out destinationToken with
            | none => rw [hin, hout] at h; exact ih h
            | some outInfo =>
              rw [hin, hout] at h
              cases h
              exact ⟨by simp, by simp, by simp⟩
        · rw [Bool.not_eq_true] at hval
          rw [hval] at h
          simp only [Bool.not_false, if_pos rfl] at h
          exact ih h
    · rw [Bool.not_eq_true] at hen
      rw [hen] at h
      simp only [Bool.not_false, if_pos rfl] at h
      exact ih h

/-- C10: every match result the matcher returns is consistent: `matched` is
true exactly when a rule is attached, the fee is the matched rule's fee when
`matched` is true, and the configured default fee (with no rule attached)
when `matched` is false — no other fee value can be returned. -/
theorem matchResult_invariant (config : FeeConfig) (registry : String → Option TokenInfo)
    (parse : String → Option Int) (now : Int) (request : SwapRequest) (res : MatchResult)
    (h : (RuleMatcher.make config).matchRequest registry parse now request = .ok res) :
    resultInvariant config.default_fee res := by
  rw [RuleMatcher.matchRequest] at h
  cases ho : registry request.originAsset with
  | none =>
    rw [ho] at h
    cases hd : registry request.destinationAsset <;> rw [hd] at h <;> cases h <;>
      exact ⟨by simp, by simp, by simp [RuleMatcher.make]⟩
  | some originToken =>
    cases hd : registry request.destinationAsset with
    | none =>
      rw [ho, hd] at h
      cases h
      exact ⟨by simp, by simp, by simp [RuleMatcher.make]⟩
    | some destinationToken =>
      rw [ho, hd] at h
      exact matchLoop_invariant parse now originToken destinationToken config.default_fee _ res h

/-- witness for C10: the invariant at a concrete one-rule configuration whose
rule matches the requested pair. -/
theorem matchResult_invariant_witness :
    resultInvariant (.single ⟨"bps", .num 20, "fees.near"⟩)
      { matched := true,
        rule := some { id := "usdc", enabled := true,
                       match_ := { in_ := { symbol := some (.str "USDC") },
                                   out := { symbol := some (.str "USDC") } },
                       fee := .single ⟨"bps", .num 10, "fees.near"⟩ },
        fee := .single ⟨"bps", .num 10, "fees.near"⟩,
        matchDetails := some
          { originToken := ⟨"a.near", "near", "USDC", 6⟩,
            destinationToken := ⟨"b.near", "near", "USDC", 6⟩,
            in_ := some ⟨⟨"a.near", "near", "USDC", 6⟩, { symbol := true }⟩,
            out := some ⟨⟨"b.near", "near", "USDC", 6⟩, { symbol := true }⟩ } } :=
  matchResult_invariant
    { version := "1.0.0", default_fee := .single ⟨"bps", .num 20, "fees.near"⟩,
      rules := [{ id := "usdc", enabled := true,
                  match_ := { in_ := { symbol := some (.str "USDC") },
                              out := { symbol := some (.str "USDC") } },
                  fee := .single ⟨"bps", .num 10, "fees.near"⟩ }] }
    (fun a => if a = "a.near" then some ⟨"a.near", "near", "USDC", 6⟩
              else if a = "b.near" then some ⟨"b.near", "near", "USDC", 6⟩ else none)
    (fun _ => none) 0 { originAsset := "a.near", destinationAsset := "b.near" } _ (by decide)

/-- a configuration whose only rule carries an unparseable `valid_from`
timestamp but is otherwise fully valid. -/
def badDateConfig : FeeConfig :=
  { version := "1.0.0",
    default_fee := .single ⟨"bps", .num 20, "fees.near"⟩,
    rules := [{ id := "test-rule", enabled := true,
                match_ := { in_ := { symbol := some (.str "USDC") },
                            out := { symbol := some (.str "USDC") } },
                fee := .single ⟨"bps", .num 10, "fees.near"⟩,
                valid_from := some "not-a-valid-date" }] }

/-- C5 (refuting the claim on the code as written): `validateConfig` never
inspects `valid_from` / `valid_until`, so a rule with the unparseable
timestamp "not-a-valid-date" passes validation, the engine is constructed,
and the first match call against a resolvable pair throws the date error at
match time — the repository's own validator tests expect this configuration
to be rejected with a `rules[0].valid_from` violation instead. The date
parser is instantiated at `fun s => none`, the value of
`new Date(s).getTime()` on this input. -/
theorem badDate_passes_validation_and_throws_at_match :
    (validateConfig badDateConfig).valid = true ∧
    RuleEngine.create badDateConfig = .ok ⟨badDateConfig, RuleMatcher.make badDateConfig⟩ ∧
    (RuleMatcher.make badDateConfig).matchRequest
        (fun a => if a = "usdc.near" then some ⟨"usdc.near", "near", "USDC", 6⟩ else none)
        (fun _ => none) 0 { originAsset := "usdc.near", destinationAsset := "usdc.near" } =
      .error "Invalid valid_from: \"not-a-valid-date\" is not a valid date string" := by
  refine ⟨by decide, by decide, by decide⟩

/-- a configuration whose default fee has 20000 basis points — 200% — and is
otherwise fully valid. -/
def bpsTooLargeConfig : FeeConfig :=
  { version := "1.0.0",
    default_fee := .single ⟨"bps", .num 20000, "fees.near"⟩,
    rules := [] }

/-- C6 (refuting the claim on the code as written): `validateSingleFee` only
checks `fee.bps < 0` and has no upper bound, so a configuration whose fee
has 20000 basis points produces no violation at all and the engine is
happily constructed — the repository's own validator tests expect any bps
above 10000 to be rejected with an `exceeds maximum` violation. -/
theorem bps_over_cap_passes_validation :
    (validateConfig bpsTooLargeConfig).valid = true ∧
    (validateConfig bpsTooLargeConfig).errors = [] ∧
    RuleEngine.create bpsTooLargeConfig =
      .ok ⟨bpsTooLargeConfig, RuleMatcher.make bpsTooLargeConfig⟩ := by
  refine ⟨by decide, by decide, by decide⟩

/-- the rule list is in priority-descending order. -/
def SortedByPriority (l : List Rule) : Prop :=
  List.Pairwise (fun a b => rulePriority b ≤ rulePriority a) l

lemma mem_insertByPriority {a x : Rule} {l : List Rule} :
    a ∈ insertByPriority x l ↔ a = x ∨ a ∈ l := by
  induction l with
  | nil => simp [insertByPriority]
  | cons y ys ih =>
    rw [insertByPriority]
    by_cases h : rulePriority y > rulePriority x
    · rw [if_pos h]
      simp only [List.mem_cons, ih]
      tauto
    · rw [if_neg h]
      simp only [List.mem_cons]

lemma insertByPriority_sorted {x : Rule} {l : List Rule} (h : SortedByPriority l) :
    SortedByPriority (insertByPriority x l) := by
  induction l with
  | nil => simp [insertByPriority, SortedByPriority]
  | cons y ys ih =>
    rw [SortedByPriority, List.pairwise_cons] at h
    obtain ⟨hy, hys⟩ := h
    rw [insertByPriority]
    by_cases hxy : rulePriority y > rulePriority x
    · rw [if_pos hxy]
      rw [SortedByPriority, List.pairwise_cons]
      refine ⟨?_, ih hys⟩
      intro b hb
      rcases mem_insertByPriority.mp hb with rfl | hb
      · omega
      · exact hy b hb
    · rw [if_neg hxy]
      rw [SortedByPriority, List.pairwise_cons]
      refine ⟨?_, List.pairwise_cons.mpr ⟨hy, hys⟩⟩
      intro b hb
      rcases List.mem_cons.mp hb with rfl | hb
      · omega
      · have := hy b hb
        omega

lemma sortRulesByPriority_sorted (l : List Rule) : SortedByPriority (sortRulesByPriority l) := by
  induction l with
  | nil => simp [sortRulesByPriority, SortedByPriority]
  | cons x xs ih =>
    rw [sortRulesByPriority]
    exact insertByPriority_sorted ih

lemma mem_sortRulesByPriority {a : Rule} {l : List Rule} :
    a ∈ sortRulesByPriority l ↔ a ∈ l := by
  induction l with
  | nil => simp [sortRulesByPriority]
  | cons x xs ih =>
    rw [sortRulesByPriority, mem_insertByPriority]
    simp [ih]

/-- how inserting a rule into a sorted list changes the first hit of `find?`:
an eligible rule of strictly higher priority still wins, otherwise the
inserted rule wins when it is itself eligible, and otherwise the old first
hit stands. -/
def combineSel (x : Rule) (p : Rule → Bool) : Option Rule → Option Rule
  | some y => if rulePriority y > rulePriority x then some y else if p x then some x else some y
  | none => if p x then some x else none

lemma find?_insertByPriority (p : Rule → Bool) (x : Rule) {s : List Rule}
    (hs : SortedByPriority s) :
    (insertByPriority x s).find? p = combineSel x p (s.find? p) := by
  induction s with
  | nil =>
    by_cases hpx : p x <;>
      simp [insertByPriority, combineSel, List.find?_cons, hpx]
  | cons y ys ih =>
    rw [SortedByPriority, List.pairwise_cons] at hs
    obtain ⟨hy, hys⟩ := hs
    rw [insertByPriority]
    by_cases hxy : rulePriority y > rulePriority x
    · rw [if_pos hxy]
      by_cases hpy : p y
      · rw [List.find?_cons_of_pos _ hpy, List.find?_cons_of_pos _ hpy]
        rw [combineSel, if_pos hxy]
      · rw [List.find?_cons_of_neg _ hpy, List.find?_cons_of_neg _ hpy, ih hys]
    · rw [if_neg hxy]
      by_cases hpx : p x
      · rw [List.find?_cons_of_pos _ hpx]
        cases hf : (y :: ys).find? p with
        | none => rw [combineSel, if_pos hpx]
        | some z =>
          have hz : rulePriority z ≤ rulePriority x := by
            rcases List.mem_cons.mp (List.mem_of_find?_eq_some hf) with rfl | hmem
            · omega
            · have := hy z hmem
              omega
          rw [combineSel, if_neg (by omega), if_pos hpx]
      · rw [List.find?_cons_of_neg _ hpx]
        cases hf : (y :: ys).find? p with
        | none => rw [combineSel, if_neg hpx]
        | some z =>
          have hz : rulePriority z ≤ rulePriority x := by
            rcases List.mem_cons.mp (List.mem_of_find?_eq_some hf) with rfl | hmem
            · omega
            · have := hy z hmem
              omega
          rw [combineSel, if_neg (by omega), if_neg hpx]

lemma selectRuleSpec_cons (p : Rule → Bool) (x : Rule) (xs : List Rule) :
    selectRuleSpec p (x :: xs) = combineSel x p (selectRuleSpec p xs) := by
  rw [selectRuleSpec]
  by_cases hpx : p x
  · rw [if_pos hpx]
    cases hsel : selectRuleSpec p xs with
    | none => rw [combineSel, if_pos hpx]
    | some b =>
      show (if rulePriority b > rulePriority x then some b else some x) = combineSel x p (some b)
      rw [combineSel]
      by_cases hb : rulePriority b > rulePriority x
      · rw [if_pos hb, if_pos hb]
      · rw [if_neg hb, if_neg hb, if_pos hpx]
  · rw [if_neg hpx]
    cases hsel : selectRuleSpec p xs with
    | none => rw [combineSel, if_neg hpx]
    | some b =>
      rw [combineSel]
      by_cases hb : rulePriority b > rulePriority x
      · rw [if_pos hb]
      · rw [if_neg hb, if_neg hpx]

/-- first hit of a predicate over the stably priority-sorted list coincides
with the specification's keep-first-highest-priority scan of the original
list. -/
lemma find?_sortRulesByPriority (p : Rule → Bool) (l : List Rule) :
    (sortRulesByPriority l).find? p = selectRuleSpec p l := by
  induction l with
  | nil => rfl
  | cons x xs ih =>
    rw [sortRulesByPriority, find?_insertByPriority p x (sortRulesByPriority_sorted xs), ih,
        selectRuleSpec_cons]

lemma checkValidUntil_ok (parse : String → Option Int) (now : Int) {vu : Option String}
    (h : boundParses parse vu = true) : ∃ b, checkValidUntil parse now vu = .ok b := by
  cases vu with
  | none => exact ⟨true, rfl⟩
  | some s =>
    rw [boundParses] at h
    by_cases he : s = ""
    · exact ⟨true, by rw [checkValidUntil, if_pos he]⟩
    · have hsome : (parse s).isSome := by
        simp only [Bool.or_eq_true] at h
        rcases h with h1 | h1
        · exact absurd (of_decide_eq_true h1) he
        · exact h1
      obtain ⟨t, ht⟩ := Option.isSome_iff_exists.mp hsome
      rw [checkValidUntil, if_neg he, parseDate_ok ht]
      show ∃ b, (if now > t then Except.ok false else Except.ok true) = .ok b
      by_cases hn : now > t
      · exact ⟨false, by rw [if_pos hn]⟩
      · exact ⟨true, by rw [if_neg hn]⟩

lemma isRuleValidNow_ok (parse : String → Option Int) (now : Int) {r : Rule}
    (h : datesParse parse r = true) : ∃ b, isRuleValidNow parse now r = .ok b := by
  rw [datesParse, Bool.and_eq_true] at h
  obtain ⟨hf, hu⟩ := h
  unfold isRuleValidNow
  rcases hs : r.valid_from with _ | ⟨s⟩
  · show ∃ b, checkValidUntil parse now r.valid_until = .ok b
    exact checkValidUntil_ok parse now hu
  · rw [hs, boundParses] at hf
    show ∃ b, (if s = "" then checkValidUntil parse now r.valid_until
               else
                 match parseDate parse s "valid_from" with
                 | .error e => .error e
                 | .ok tFrom =>
                   if now < tFrom then .ok false
                   else checkValidUntil parse now r.valid_until) = .ok b
    by_cases he : s = ""
    · rw [if_pos he]
      exact checkValidUntil_ok parse now hu
    · rw [if_neg he]
      have hsome : (parse s).isSome := by
        simp only [Bool.or_eq_true] at hf
        rcases hf with h1 | h1
        · exact absurd (of_decide_eq_true h1) he
        · exact h1
      obtain ⟨t, ht⟩ := Option.isSome_iff_exists.mp hsome
      rw [parseDate_ok ht]
      show ∃ b, (if now < t then Except.ok false
                 else checkValidUntil parse now r.valid_until) = .ok b
      by_cases hn : now < t
      · exact ⟨false, by rw [if_pos hn]⟩
      · rw [if_neg hn]
        exact checkValidUntil_ok parse now hu

lemma matchLoop_eq_find (parse : String → Option Int) (now : Int)
    (o d : TokenInfo) (df : FeeValue) {l : List Rule}
    (h : ∀ r ∈ l, datesParse parse r = true) :
    matchLoop parse now o d df l =
      .ok (resultOfSelection o d df (l.find? (ruleEligible parse now o d))) := by
  induction l with
  | nil => rfl
  | cons rule rest ih =>
    have hrest : ∀ r ∈ rest, datesParse parse r = true :=
      fun r hr => h r (List.mem_cons_of_mem rule hr)
    obtain ⟨b, hb⟩ := isRuleValidNow_ok parse now (h rule (List.mem_cons_self rule rest))
    rw [matchLoop]
    by_cases hen : rule.enabled
    · rw [hen]
      show (match isRuleValidNow parse now rule with
            | .error e => Except.error e
            | .ok valid =>
              if !valid then matchLoop parse now o d df rest
              else
                match matchesToken rule.match_.in_ o, matchesToken rule.match_.out d with
                | some inInfo, some outInfo =>
                  Except.ok { matched := true, rule := some rule, fee := rule.fee,
                              matchDetails := some { originToken := o, destinationToken := d,
                                                     in_ := some inInfo, out := some outInfo } }
                | _, _ => matchLoop parse now o d df rest) = _
      rw [hb]
      cases b with
      | false =>
        show matchLoop parse now o d df rest = _
        rw [ih hrest]
        have hpe : ruleEligible parse now o d rule = false := by
          simp [ruleEligible, hen, hb]
        rw [List.find?_cons_of_neg _ (by simp [hpe])]
      | true =>
        show ((match matchesToken rule.match_.in_ o, matchesToken rule.match_.out d with
               | some inInfo, some outInfo =>
                 Except.ok { matched := true, rule := some rule, fee := rule.fee,
                             matchDetails := some { originToken := o, destinationToken := d,
                                                    in_ := some inInfo, out := some outInfo } }
               | _, _ => matchLoop parse now o d df rest : Except String MatchResult)) = _
        cases hin : matchesToken rule.match_.in_ o with
        | none =>
          cases hout : matchesToken rule.match_.out d with
          | none =>
            show matchLoop parse now o d df rest = _
            rw [ih hrest]
            have hpe : ruleEligible parse now o d rule = false := by
              simp [ruleEligible, hen, hb, hin]
            rw [List.find?_cons_of_neg _ (by simp [hpe])]
          | some outInfo =>
            show matchLoop parse now o d df rest = _
            rw [ih hrest]
            have hpe : ruleEligible parse now o d rule = false := by
              simp [ruleEligible, hen, hb, hin]
            rw [List.find?_cons_of_neg _ (by simp [hpe])]
        | some inInfo =>
          cases hout : matchesToken rule.match_.out d with
          | none =>
            show matchLoop parse now o d df rest = _
            rw [ih hrest]
            have hpe : ruleEligible parse now o d rule = false := by
              simp [ruleEligible, hen, hb, hout]
            rw [List.find?_cons_of_neg _ (by simp [hpe])]
          | some outInfo =>
            show (Except.ok { matched := true, rule := some rule, fee := rule.fee,
                              matchDetails := some { originToken := o, destinationToken := d,
                                                     in_ := some inInfo, out := some outInfo } } :
                    Except String MatchResult) = _
            have hpe : ruleEligible parse now o d rule = true := by
              simp [ruleEligible, hen, hb, hin, hout]
            rw [List.find?_cons_of_pos _ hpe]
            rw [resultOfSelection, hin, hout]
    · rw [Bool.not_eq_true] at hen
      rw [hen]
      show matchLoop parse now o d df rest = _
      rw [ih hrest]
      have hpe : ruleEligible parse now o d rule = false := by
        simp [ruleEligible, hen]
      rw [List.find?_cons_of_neg _ (by simp [hpe])]

/-- C1: with both assets resolved and every rule's validity timestamps
parseable, the matcher returns exactly the result of taking the FIRST
eligible rule — enabled, currently valid, both matchers succeeding — in the
stably priority-descending-sorted rule list (first conjunct), and that first
hit is precisely the eligible rule of maximal priority that appears earliest
in the original configuration order, as computed by `selectRuleSpec` (second
conjunct): a higher-priority eligible rule always wins and equal-priority
ties go to the earlier rule. -/
theorem match_selects_first_by_priority (config : FeeConfig)
    (registry : String → Option TokenInfo) (parse : String → Option Int) (now : Int)
    (request : SwapRequest) (o d : TokenInfo)
    (ho : registry request.originAsset = some o)
    (hd : registry request.destinationAsset = some d)
    (hdates : ∀ r ∈ config.rules, datesParse parse r = true) :
    (RuleMatcher.make config).matchRequest registry parse now request =
      .ok (resultOfSelection o d config.default_fee
            ((sortRulesByPriority config.rules).find? (ruleEligible parse now o d))) ∧
    (sortRulesByPriority config.rules).find? (ruleEligible parse now o d) =
      selectRuleSpec (ruleEligible parse now o d) config.rules := by
  constructor
  · rw [RuleMatcher.matchRequest, ho, hd]
    have hs : ∀ r ∈ sortRulesByPriority config.rules, datesParse parse r = true :=
      fun r hr => hdates r (mem_sortRulesByPriority.mp hr)
    exact matchLoop_eq_find parse now o d config.default_fee hs
  · exact find?_sortRulesByPriority _ _

/-- matcher pair requiring symbol USDC on both sides, used by the selection
witness. -/
def usdcBoth : RuleMatch :=
  { in_ := { symbol := some (.str "USDC") }, out := { symbol := some (.str "USDC") } }

/-- origin token of the selection witness. -/
def witnessOrigin : TokenInfo := ⟨"origin.near", "near", "USDC", 6⟩

/-- destination token of the selection witness. -/
def witnessDestination : TokenInfo := ⟨"dest.near", "near", "USDC", 6⟩

/-- registry of the selection witness. -/
def witnessRegistry : String → Option TokenInfo := fun a =>
  if a = "origin.near" then some witnessOrigin
  else if a = "dest.near" then some witnessDestination
  else none

/-- first configured rule: default priority 100. -/
def lowRule : Rule :=
  { id := "low-first", enabled := true, match_ := usdcBoth,
    fee := .single ⟨"bps", .num 5, "fees.near"⟩ }

/-- second configured rule: explicit priority 200. -/
def highRule : Rule :=
  { id := "high-later", enabled := true, priority := some 200, match_ := usdcBoth,
    fee := .single ⟨"bps", .num 7, "fees.near"⟩ }

/-- third configured rule: default priority 100 again. -/
def tieRule : Rule :=
  { id := "tie-last", enabled := true, match_ := usdcBoth,
    fee := .single ⟨"bps", .num 9, "fees.near"⟩ }

/-- three matching rules, the highest-priority one placed in the middle. -/
def priorityConfig : FeeConfig :=
  { version := "1.0.0", default_fee := .single ⟨"bps", .num 20, "fees.near"⟩,
    rules := [lowRule, highRule, tieRule] }

/-- witness for C1: among three eligible rules, the priority-200 rule
configured second beats both priority-100 rules, including the one listed
first. -/
theorem match_selects_first_by_priority_witness :
    (RuleMatcher.make priorityConfig).matchRequest witnessRegistry (fun _ => none) 0
        { originAsset := "origin.near", destinationAsset := "dest.near" } =
      .ok { matched := true, rule := some highRule, fee := highRule.fee,
            matchDetails := some { originToken := witnessOrigin,
                                   destinationToken := witnessDestination,
                                   in_ := some ⟨witnessOrigin, { symbol := true }⟩,
                                   out := some ⟨witnessDestination, { symbol := true }⟩ } } := by
  have h := match_selects_first_by_priority priorityConfig witnessRegistry (fun _ => none) 0
      { originAsset := "origin.near", destinationAsset := "dest.near" }
      witnessOrigin witnessDestination (by decide) (by decide) (by decide)
  rw [h.1]
  decide

end OneClick
